import Mathlib

/-!
Verification of the bibliography-to-HTML converter (random_stuff/bib_to_html.py).

Strings are modelled as lists of characters (`Str`); the Python string
operations used by the program (split on a literal separator, split on
whitespace, strip, replace, startswith, endswith, lower, ordering) are
given executable definitions with the same semantics.  A bibliographic
record is an association list from field names to values; key lookup takes
the first matching binding, which agrees with Python dictionaries since the
parser produces unique keys.

Whitespace and lower-casing are modelled over the ASCII range (Python also
treats some rare Unicode code points as whitespace and lower-cases
non-ASCII letters; no claim in question depends on those code points).

Python operations that can raise (`list[-1]` on an empty list) are modelled
with `Option`: `none` is an uncaught exception.
-/

/-- A Python string, as a list of characters (code points). -/
abbrev Str : Type := List Char

/-- Embed a Lean string literal as a `Str`. -/
def toStr (s : String) : Str := s.toList

/-- Python whitespace test (`str.isspace`), restricted to the ASCII range. -/
def pyIsSpace (c : Char) : Bool :=
  c == ' ' || c == '\t' || c == '\n' || c == '\r' || c == '\x0b' || c == '\x0c'

/-- Python `str.strip()`: remove leading and trailing whitespace. -/
def pyStrip (s : Str) : Str :=
  ((List.dropWhile pyIsSpace s).reverse.dropWhile pyIsSpace).reverse

/-- Python `str.startswith(pre)`. -/
def pyStartsWith (pre s : Str) : Bool := List.isPrefixOf pre s

/-- Python `str.endswith(suf)`. -/
def pyEndsWith (suf s : Str) : Bool := List.isSuffixOf suf s

/-- Python `str.lower()`, restricted to the ASCII range. -/
def pyLower (s : Str) : Str := List.map Char.toLower s

/-- Fuel-driven worker for `pySplit`.  The fuel bounds the number of steps;
`pySplit` supplies the length of the input, which always suffices because
every step consumes at least one character. -/
def pySplitF (sep : Str) : Nat → Str → List Str
  | _, [] => [[]]
  | 0, s => [s]
  | fuel + 1, c :: rest =>
    if sep ≠ [] ∧ List.isPrefixOf sep (c :: rest) then
      [] :: pySplitF sep fuel (rest.drop (sep.length - 1))
    else
      match pySplitF sep fuel rest with
      | [] => [[c]]
      | seg :: segs => (c :: seg) :: segs

/-- Python `str.split(sep)` for a non-empty literal separator: splits at each
leftmost non-overlapping occurrence of `sep`. -/
def pySplit (sep s : Str) : List Str := pySplitF sep s.length s

/-- Split at every character satisfying `p`, keeping empty segments. -/
def splitChar (p : Char → Bool) : Str → List Str
  | [] => [[]]
  | c :: rest =>
    if p c then [] :: splitChar p rest
    else
      match splitChar p rest with
      | [] => [[c]]
      | seg :: segs => (c :: seg) :: segs

/-- Python `str.split()` with no argument: split on whitespace runs and drop
empty pieces. -/
def pySplitWs (s : Str) : List Str :=
  (splitChar pyIsSpace s).filter (fun seg => seg ≠ [])

/-- Fuel-driven worker for `pyReplace`. -/
def pyReplaceF (pat rep : Str) : Nat → Str → Str
  | _, [] => []
  | 0, s => s
  | fuel + 1, c :: rest =>
    if pat ≠ [] ∧ List.isPrefixOf pat (c :: rest) then
      rep ++ pyReplaceF pat rep fuel (rest.drop (pat.length - 1))
    else
      c :: pyReplaceF pat rep fuel rest

/-- Python `str.replace(pat, rep)` for a non-empty pattern: replace each
leftmost non-overlapping occurrence. -/
def pyReplace (pat rep s : Str) : Str := pyReplaceF pat rep s.length s

/-- Python comparison `s < t` on strings: lexicographic by code point, with a
proper prefix smaller than the longer string. -/
def strLt : Str → Str → Bool
  | [], [] => false
  | [], _ :: _ => true
  | _ :: _, [] => false
  | a :: s, b :: t => if a < b then true else if b < a then false else strLt s t

/-- Python comparison `s <= t` on strings, expressed from `strLt` by totality. -/
def strLe (s t : Str) : Bool := !(strLt t s)

/-- Join a list of strings (Python `"".join` and string accumulation). -/
def catStr (l : List Str) : Str := l.foldr (fun a b => a ++ b) []

/-- Python `sep.join(l)`. -/
def strIntercalate (sep : Str) (l : List Str) : Str := catStr (List.intersperse sep l)

/-- A bibliographic record: field name to field value, first binding wins. -/
abbrev Entry : Type := List (Str × Str)

/-- Field lookup (`entry[k]` when the key is known to exist, `entry.get(k)`
otherwise). -/
def entryGet (e : Entry) (k : Str) : Option Str :=
  match e with
  | [] => none
  | (k', v) :: rest => if k' = k then some v else entryGet rest k

/-- Python `entry.get(k, d)`. -/
def entryGetD (e : Entry) (k d : Str) : Str := (entryGet e k).getD d

/-- Python `k in entry`. -/
def entryHas (e : Entry) (k : Str) : Bool := (entryGet e k).isSome

/-- Map with failure propagation: models a Python loop whose body can raise,
aborting the whole computation at the first failing element. -/
def mapO (f : α → Option β) : List α → Option (List β)
  | [] => some []
  | a :: l =>
    match f a, mapO f l with
    | some b, some bs => some (b :: bs)
    | _, _ => none

/-- Surname extraction for one author piece, from the body of the loop in
`get_author_string`: strip the piece; if it contains a comma the surname is
the first comma-separated part (stripped), otherwise it is the last
whitespace-delimited token.  `none` models the `IndexError` that Python
raises on `parts[-1]` when the piece has no tokens. -/
def surnameOf (piece : Str) : Option Str :=
  let author := pyStrip piece
  if author.contains ',' then
    some (((pySplit (toStr ",") author).map pyStrip).headD [])
  else
    (pySplitWs author).getLast?

/-- Python joins the formatted authors with `", "` and `" & "` before the
last one when there are at least two, returns the single author unchanged,
and returns the empty string for an empty list. -/
def joinAuthors (l : List Str) : Str :=
  if l.length > 1 then
    strIntercalate (toStr ", ") l.dropLast ++ toStr " & " ++ l.getLastD []
  else
    match l with
    | [] => []
    | x :: _ => x

/-- `get_author_string(entry)`: `""` without an author field; otherwise split
the author field on `" and "` and join the extracted surnames.  `none`
models an uncaught `IndexError` from a token-less piece. -/
def get_author_string (e : Entry) : Option Str :=
  match entryGet e (toStr "author") with
  | some a => (mapO surnameOf (pySplit (toStr " and ") a)).map joinAuthors
  | none => some []

/-- `title = entry.get('title', 'Unknown title')`. -/
def titleOf (e : Entry) : Str := entryGetD e (toStr "title") (toStr "Unknown title")

/-- `year = entry.get('year', 'n.d.')`. -/
def yearOf (e : Entry) : Str := entryGetD e (toStr "year") (toStr "n.d.")

/-- Link derivation in `format_bibtex_entry`: start from
`entry.get('url', entry.get('doi', '#'))`; when that value is not `'#'` and
does not start with `http` or `ftp`, fall back to the DOI-derived URL when a
doi field exists and to `'#'` otherwise. -/
def resolveLink (e : Entry) : Str :=
  let link := entryGetD e (toStr "url") (entryGetD e (toStr "doi") (toStr "#"))
  if link ≠ toStr "#" ∧ (pyStartsWith (toStr "http") link || pyStartsWith (toStr "ftp") link) = false then
    if entryHas e (toStr "doi") then toStr "https://doi.org/" ++ entryGetD e (toStr "doi") []
    else toStr "#"
  else link

/-- Custom-note derivation: the note is used (stripped) only when the raw
note field starts with `'('` and ends with `')'`. -/
def customNote (e : Entry) : Str :=
  if pyStartsWith (toStr "(") (entryGetD e (toStr "note") [])
      && pyEndsWith (toStr ")") (entryGetD e (toStr "note") []) then
    pyStrip (entryGetD e (toStr "note") [])
  else []

/-- Container fragment: journal, else booktitle (with `In`), else publisher,
each wrapped in an emphasis tag; empty when none is present. -/
def container (e : Entry) : Str :=
  if entryHas e (toStr "journal") then
    toStr "<em>" ++ entryGetD e (toStr "journal") [] ++ toStr "</em>"
  else if entryHas e (toStr "booktitle") then
    toStr "<em>In " ++ entryGetD e (toStr "booktitle") [] ++ toStr "</em>"
  else if entryHas e (toStr "publisher") then
    toStr "<em>" ++ entryGetD e (toStr "publisher") [] ++ toStr "</em>"
  else []

/-- Volume fragment: `", Vol. <volume>"` when the field is present. -/
def volumeStr (e : Entry) : Str :=
  if entryHas e (toStr "volume") then toStr ", Vol. " ++ entryGetD e (toStr "volume") []
  else []

/-- Pages fragment: `", pp. <pages>"` with `--` replaced by an en-dash. -/
def pagesStr (e : Entry) : Str :=
  if entryHas e (toStr "pages") then
    toStr ", pp. " ++ pyReplace (toStr "--") (toStr "–") (entryGetD e (toStr "pages") [])
  else []

/-- Field name `url_<n>`. -/
def urlKey (n : Nat) : Str := toStr ("url_" ++ toString n)

/-- Field name `url_note_<n>`. -/
def urlNoteKey (n : Nat) : Str := toStr ("url_note_" ++ toString n)

/-- The auxiliary-link loop of `format_bibtex_entry` over the given index
list: stop (`break`) at the first index whose `url_<n>` field is absent;
otherwise append one inline link whose text defaults to `link <n>` unless
`url_note_<n>` is present. -/
def auxHtmlAux (e : Entry) : List Nat → Str
  | [] => []
  | a :: rest =>
    if entryHas e (urlKey a) = false then []
    else
      let url_note :=
        if entryHas e (urlNoteKey a) = false then toStr "link " ++ toStr (toString a)
        else entryGetD e (urlNoteKey a) []
      (toStr " <a href=\"" ++ entryGetD e (urlKey a) [] ++ toStr "\" class=\"external\">["
        ++ url_note ++ toStr "]</a>") ++ auxHtmlAux e rest

/-- The auxiliary links rendered by `format_bibtex_entry`: the loop runs over
`range(2, 31)`, that is the indices 2 through 30. -/
def auxHtml (e : Entry) : Str := auxHtmlAux e (List.range' 2 29)

/-- Sentence end after the links: the custom note in a strong tag followed by
a period when present, a bare period otherwise. -/
def noteSeg (e : Entry) : Str :=
  if customNote e ≠ [] then toStr " <strong>" ++ customNote e ++ toStr "</strong>."
  else toStr "."

/-- Venue sentence: appended only when at least one of container, volume and
pages fragments is non-empty. -/
def venueSeg (e : Entry) : Str :=
  if container e ≠ [] ∨ volumeStr e ≠ [] ∨ pagesStr e ≠ [] then
    toStr " " ++ container e ++ volumeStr e ++ pagesStr e ++ toStr "."
  else []

/-- Opening part of the fragment: author/year line, then the title linked to
the resolved link. -/
def headerSeg (e : Entry) (author_str : Str) : Str :=
  toStr "\n<li>\n<p>" ++ author_str ++ toStr " (" ++ yearOf e ++ toStr ").\n<br>\n<a href=\""
    ++ resolveLink e ++ toStr "\" class=\"external\">" ++ titleOf e ++ toStr "</a>"

/-- `format_bibtex_entry(entry)`: one HTML list item per record; `none`
models the uncaught exception propagating out of `get_author_string`. -/
def format_bibtex_entry (e : Entry) : Option Str :=
  (get_author_string e).map fun author_str =>
    headerSeg e author_str ++ auxHtml e ++ noteSeg e ++ venueSeg e ++ toStr "</p>\n</li>"

/-- One generation of the sort key of pass 1 in `convert_bib_to_html`:
`entry.get('author', '').split(' and ')[0].split(',')[0].split()[-1].lower()`.
`none` models the `IndexError` raised on `[-1]` when the whitespace split is
empty, which happens exactly when the author field is absent, empty, or its
first piece has no token before the first comma. -/
def authorSortKey (e : Entry) : Option Str :=
  let a := entryGetD e (toStr "author") []
  let firstAuthor := (pySplit (toStr " and ") a).headD []
  let beforeComma := (pySplit (toStr ",") firstAuthor).headD []
  ((pySplitWs beforeComma).getLast?).map pyLower

/-- Pass-1 key with the exception case defaulted, used to state the sort once
the guard has established that no key computation fails. -/
def authorKeyD (e : Entry) : Str := (authorSortKey e).getD []

/-- Pass-2 key: `entry.get('year', '')`. -/
def yearKey (e : Entry) : Str := entryGetD e (toStr "year") []

/-- Stable insertion into a list ordered by the comparator. -/
def insertComp (le : α → α → Bool) (a : α) : List α → List α
  | [] => [a]
  | b :: l => if le a b then a :: b :: l else b :: insertComp le a l

/-- Stable insertion sort; its result on any comparator induced by a key
agrees with Python `sorted(l, key=k)`, which is also a stable sort. -/
def sortComp (le : α → α → Bool) : List α → List α
  | [] => []
  | a :: l => insertComp le a (sortComp le l)

/-- Comparator induced by a string-valued key. -/
def leK (k : α → Str) (a b : α) : Bool := strLe (k a) (k b)

/-- Comparator of the composite key `(k2, k1)` with `k2` dominant. -/
def lexK (k2 k1 : α → Str) (a b : α) : Bool :=
  strLt (k2 a) (k2 b) || ((k2 a == k2 b) && strLe (k1 a) (k1 b))

/-- The two-pass sort of `convert_bib_to_html`: pass 1 by the first author's
lower-cased surname, pass 2 (stable) by the raw year string.  `none` models
the run aborting with an uncaught `IndexError` from the pass-1 key. -/
def sortEntries (l : List Entry) : Option (List Entry) :=
  match mapO authorSortKey l with
  | none => none
  | some _ => some (sortComp (leK yearKey) (sortComp (leK authorKeyD) l))

/-- The fixed HTML document shell around the concatenated fragments. -/
def wrapHtml (content : Str) : Str :=
  toStr "<!DOCTYPE html>\n<html lang=\"it\">\n<head>\n    <meta charset=\"UTF-8\">\n    <title>Converted bibliography</title>\n    <style>\n        /* Minimal styles */\n        li \x7b\n            margin-bottom: 1em;\n        \x7d\n        .external \x7b\n            text-decoration: none;\n        \x7d\n    </style>\n</head>\n<body>\n    <h1>References</h1>\n    <ul>\n"
    ++ content ++ toStr "\n    </ul>\n</body>\n</html>"

/-- Outcome of the external read-and-parse step around which
`convert_bib_to_html` wraps its `try`: the file may be missing, parsing may
fail with a message, or a list of records is produced. -/
inductive ReadResult where
  | fileNotFound : ReadResult
  | failed : Str → ReadResult
  | ok : List Entry → ReadResult

/-- Observable result of a conversion run: the error message reported, if
any, and the content written to the output file, if any. -/
structure ConvResult where
  errorMessage : Option Str
  output : Option Str
deriving DecidableEq

/-- `convert_bib_to_html(input_file, output_file)` over the modelled read
step: a missing file or a parse failure is reported and the function returns
before any output is produced; otherwise the entries are sorted, formatted
and wrapped in the document shell.  `⟨none, none⟩` models the run dying on
an uncaught exception from the sort key or the formatter, which also happens
before the output file is opened. -/
def convert_bib_to_html (input_file : Str) (r : ReadResult) : ConvResult :=
  match r with
  | .fileNotFound => ⟨some (toStr "ERROR: File not found: " ++ input_file), none⟩
  | .failed msg => ⟨some (toStr "ERROR while trying to read the BibTeX file: " ++ msg), none⟩
  | .ok entries =>
    match sortEntries entries with
    | none => ⟨none, none⟩
    | some sorted =>
      match mapO format_bibtex_entry sorted with
      | none => ⟨none, none⟩
      | some frags => ⟨none, some (wrapHtml (catStr frags))⟩

/-- State-threaded dictionary read `entry.get(k, d)`: the record is passed
through so that the sequence of operations the formatter performs on the
record is explicit; a read leaves it unchanged. -/
def dGetD (k d : Str) (e : Entry) : Str × Entry := (entryGetD e k d, e)

/-- State-threaded membership test `k in entry`. -/
def dHas (k : Str) (e : Entry) : Bool × Entry := (entryHas e k, e)

/-- State-threaded subscript `entry[k]` at call sites where the key was
checked to be present. -/
def dIdx (k : Str) (e : Entry) : Str × Entry := (entryGetD e k [], e)

/-- `get_author_string` with its two record accesses threaded. -/
def get_author_string_st (e : Entry) : Option Str × Entry :=
  let (hasA, e1) := dHas (toStr "author") e
  if hasA then
    let (a, e2) := dIdx (toStr "author") e1
    ((mapO surnameOf (pySplit (toStr " and ") a)).map joinAuthors, e2)
  else (some [], e1)

/-- The link derivation with its record accesses threaded, in the evaluation
order of the Python expression (the inner `get` argument first). -/
def resolveLink_st (e : Entry) : Str × Entry :=
  let (doiDefault, e1) := dGetD (toStr "doi") (toStr "#") e
  let (link, e2) := dGetD (toStr "url") doiDefault e1
  if link ≠ toStr "#" ∧ (pyStartsWith (toStr "http") link || pyStartsWith (toStr "ftp") link) = false then
    let (hasDoi, e3) := dHas (toStr "doi") e2
    if hasDoi then
      let (d, e4) := dIdx (toStr "doi") e3
      (toStr "https://doi.org/" ++ d, e4)
    else (toStr "#", e3)
  else (link, e2)

/-- The custom-note derivation with its record accesses threaded. -/
def customNote_st (e : Entry) : Str × Entry :=
  let (n1, e1) := dGetD (toStr "note") [] e
  let (n2, e2) := dGetD (toStr "note") [] e1
  if pyStartsWith (toStr "(") n1 && pyEndsWith (toStr ")") n2 then
    let (n, e3) := dIdx (toStr "note") e2
    (pyStrip n, e3)
  else ([], e2)

/-- The container derivation with its record accesses threaded. -/
def container_st (e : Entry) : Str × Entry :=
  let (hasJ, e1) := dHas (toStr "journal") e
  if hasJ then
    let (j, e2) := dIdx (toStr "journal") e1
    (toStr "<em>" ++ j ++ toStr "</em>", e2)
  else
    let (hasB, e2) := dHas (toStr "booktitle") e1
    if hasB then
      let (b, e3) := dIdx (toStr "booktitle") e2
      (toStr "<em>In " ++ b ++ toStr "</em>", e3)
    else
      let (hasP, e3) := dHas (toStr "publisher") e2
      if hasP then
        let (p, e4) := dIdx (toStr "publisher") e3
        (toStr "<em>" ++ p ++ toStr "</em>", e4)
      else ([], e3)

/-- The volume derivation with its record accesses threaded. -/
def volumeStr_st (e : Entry) : Str × Entry :=
  let (hasV, e1) := dHas (toStr "volume") e
  if hasV then
    let (v, e2) := dIdx (toStr "volume") e1
    (toStr ", Vol. " ++ v, e2)
  else ([], e1)

/-- The pages derivation with its record accesses threaded. -/
def pagesStr_st (e : Entry) : Str × Entry :=
  let (hasP, e1) := dHas (toStr "pages") e
  if hasP then
    let (p, e2) := dIdx (toStr "pages") e1
    (toStr ", pp. " ++ pyReplace (toStr "--") (toStr "–") p, e2)
  else ([], e1)

/-- The auxiliary-link loop with its record accesses threaded. -/
def auxHtml_st (e : Entry) : List Nat → Str × Entry
  | [] => ([], e)
  | a :: rest =>
    let (hasU, e1) := dHas (urlKey a) e
    if hasU = false then ([], e1)
    else
      let (hasN, e2) := dHas (urlNoteKey a) e1
      let (url_note, e3) :=
        if hasN = false then (toStr "link " ++ toStr (toString a), e2)
        else dIdx (urlNoteKey a) e2
      let (u, e4) := dIdx (urlKey a) e3
      let (restHtml, e5) := auxHtml_st e4 rest
      ((toStr " <a href=\"" ++ u ++ toStr "\" class=\"external\">[" ++ url_note ++ toStr "]</a>")
        ++ restHtml, e5)

/-- `format_bibtex_entry` with every record access threaded, in the order the
Python statements perform them; the second component is the record as it
stands after the call. -/
def format_bibtex_entry_st (e : Entry) : Option Str × Entry :=
  let (title, e1) := dGetD (toStr "title") (toStr "Unknown title") e
  match get_author_string_st e1 with
  | (none, e2) => (none, e2)
  | (some author_str, e2) =>
    let (year, e3) := dGetD (toStr "year") (toStr "n.d.") e2
    let (link, e4) := resolveLink_st e3
    let (note, e5) := customNote_st e4
    let (cont, e6) := container_st e5
    let (vol, e7) := volumeStr_st e6
    let (pag, e8) := pagesStr_st e7
    let (aux, e9) := auxHtml_st e8 (List.range' 2 29)
    let noteHtml :=
      if note ≠ [] then toStr " <strong>" ++ note ++ toStr "</strong>." else toStr "."
    let venueHtml :=
      if cont ≠ [] ∨ vol ≠ [] ∨ pag ≠ [] then
        toStr " " ++ cont ++ vol ++ pag ++ toStr "."
      else []
    (some ((toStr "\n<li>\n<p>" ++ author_str ++ toStr " (" ++ year ++ toStr ").\n<br>\n<a href=\""
        ++ link ++ toStr "\" class=\"external\">" ++ title ++ toStr "</a>")
      ++ aux ++ noteHtml ++ venueHtml ++ toStr "</p>\n</li>"), e9)

/-- Surname extraction as the claim describes it: trim the piece; when it
contains a comma the surname is the name before the first comma (trimmed),
otherwise the last whitespace-delimited token, which does not exist for a
token-less piece. -/
def surnameClaimed (piece : Str) : Option Str :=
  let t := pyStrip piece
  if t.contains ',' then some (pyStrip (t.takeWhile (fun c => c ≠ ',')))
  else (pySplitWs t).getLast?

/-- The join as the claim describes it, by list shape: none, a sole surname,
or `", "`-separated surnames with `" & "` before the final one. -/
def joinClaimed : List Str → Str
  | [] => []
  | [s] => s
  | ss => strIntercalate (toStr ", ") ss.dropLast ++ toStr " & " ++ ss.getLastD []

/-- The author string as the claim describes it: empty without an author
field, otherwise split on `" and "`, extract surnames, join. -/
def authorStringClaimed (e : Entry) : Option Str :=
  match entryGet e (toStr "author") with
  | none => some []
  | some a => (mapO surnameClaimed (pySplit (toStr " and ") a)).map joinClaimed

/-- The link priority as amended: the candidate is the url when present, else
the doi when present, else `'#'`; a candidate equal to `'#'` or starting
with `http` or `ftp` is returned unchanged; any other candidate falls back
to the DOI-derived URL when a doi field is present and to `'#'` otherwise. -/
def resolveLinkAmended (e : Entry) : Str :=
  let cand := entryGetD e (toStr "url") (entryGetD e (toStr "doi") (toStr "#"))
  if cand = toStr "#" then cand
  else if pyStartsWith (toStr "http") cand || pyStartsWith (toStr "ftp") cand then cand
  else
    match entryGet e (toStr "doi") with
    | some d => toStr "https://doi.org/" ++ d
    | none => toStr "#"

/-- The auxiliary-link sequence as the claim describes it: the contiguous run
of present `url_<n>` fields over the indices 2 through 30, each paired with
its label, `url_note_<n>` when supplied and `link <n>` otherwise. -/
def auxLinksClaimed (e : Entry) : List (Str × Str) :=
  ((List.range' 2 29).takeWhile (fun n => entryHas e (urlKey n))).map
    (fun n => (entryGetD e (urlKey n) [], entryGetD e (urlNoteKey n) (toStr "link " ++ toStr (toString n))))

/-- Rendering of one auxiliary link as an inline anchor. -/
def renderAux (p : Str × Str) : Str :=
  toStr " <a href=\"" ++ p.1 ++ toStr "\" class=\"external\">[" ++ p.2 ++ toStr "]</a>"

/-- The single stable sort by the composite key `(raw year string,
lower-cased first-author surname)` with year dominant, as the claim
describes the net effect of the two passes; the key computation fails on the
same entries as in the two-pass version. -/
def sortEntriesLex (l : List Entry) : Option (List Entry) :=
  match mapO authorSortKey l with
  | none => none
  | some _ => some (sortComp (lexK yearKey authorKeyD) l)

theorem pySplitF_ne_nil (sep : Str) : ∀ (fuel : Nat) (s : Str), pySplitF sep fuel s ≠ []
  | 0, [] => by simp [pySplitF]
  | 0, _ :: _ => by simp [pySplitF]
  | _ + 1, [] => by simp [pySplitF]
  | fuel + 1, c :: rest => by
    unfold pySplitF
    split
    · simp
    · split
      · simp
      · simp

theorem pySplit_ne_nil (sep s : Str) : pySplit sep s ≠ [] := pySplitF_ne_nil sep s.length s

theorem headD_map (f : Str → Str) (l : List Str) (h : l ≠ []) :
    (l.map f).headD [] = f (l.headD []) := by
  cases l with
  | nil => exact absurd rfl h
  | cons a t => rfl

theorem pySplitF_comma_head : ∀ (fuel : Nat) (s : Str), s.length ≤ fuel →
    (pySplitF (toStr ",") fuel s).headD [] = s.takeWhile (fun c => c ≠ ',')
  | _, [], _ => by simp [pySplitF]
  | 0, c :: rest, h => by simp at h
  | fuel + 1, c :: rest, h => by
    have hlen : rest.length ≤ fuel := by simpa [Nat.succ_le_succ_iff] using h
    have hsep : toStr "," = [','] := rfl
    by_cases hc : c = ','
    · subst hc
      have hpre : List.isPrefixOf (toStr ",") (',' :: rest) = true := by
        simp [hsep, List.isPrefixOf]
      simp [pySplitF, hsep, List.takeWhile_cons]
    · have hpre : List.isPrefixOf (toStr ",") (c :: rest) = false := by
        simp [hsep, List.isPrefixOf]
        exact fun hcc => absurd hcc.symm hc
      unfold pySplitF
      rw [if_neg (by simp [hpre])]
      obtain ⟨seg, segs, heq⟩ := List.exists_cons_of_ne_nil (pySplitF_ne_nil (toStr ",") fuel rest)
      rw [heq]
      have := pySplitF_comma_head fuel rest hlen
      rw [heq] at this
      simp only [List.headD_cons] at this
      simp [List.takeWhile_cons, hc, this]

theorem pySplit_comma_head (s : Str) :
    (pySplit (toStr ",") s).headD [] = s.takeWhile (fun c => c ≠ ',') :=
  pySplitF_comma_head s.length s Nat.le.refl

/-- Claim C1: the spec says a record lacking an author field sorts with the
empty string as its surname key and that sorting such a record set never
raises; the code instead raises an uncaught `IndexError` in the pass-1 sort
key, because `''.split()` is the empty list and `[-1]` is out of range.
The theorem evaluates the embedded key and sort at such records: the key
computation fails (`none`), and so does the whole sort. -/
theorem c1_sort_key_fails_without_author :
    authorSortKey [] = none ∧
    authorSortKey [(toStr "title", toStr "T"), (toStr "year", toStr "2000")] = none ∧
    authorSortKey [(toStr "author", toStr "")] = none ∧
    sortEntries [[(toStr "title", toStr "T"), (toStr "year", toStr "2000")]] = none := by
  decide

/-- Claim C2, counterexample: for the record with `url="#"` and
`doi="10.1/x"`, the url is present and does not start with `http`/`ftp`, so
the claim prescribes the DOI fallback `https://doi.org/10.1/x`; the code
returns `"#"` because the initial candidate equal to `'#'` short-circuits
the whole validation. -/
theorem c2_link_priority_counterexample :
    resolveLink [(toStr "url", toStr "#"), (toStr "doi", toStr "10.1/x")] = toStr "#" ∧
    toStr "#" ≠ toStr "https://doi.org/10.1/x" := by
  decide

/-- Claim C2 as amended: the candidate is the url when present, else the doi
when present, else `'#'`; a candidate equal to `'#'` or starting with
`http`/`ftp` is returned unchanged, and any other candidate falls back to
the DOI-derived URL when a doi field is present and to `'#'` otherwise.  The
four examples listed by the claim hold as stated. -/
theorem c2_link_priority_amended :
    (∀ e, resolveLink e = resolveLinkAmended e) ∧
    resolveLink [(toStr "url", toStr "https://x.org/p"), (toStr "doi", toStr "10.1/x")]
      = toStr "https://x.org/p" ∧
    resolveLink [(toStr "doi", toStr "10.1/x")] = toStr "https://doi.org/10.1/x" ∧
    resolveLink [] = toStr "#" ∧
    resolveLink [(toStr "url", toStr "not-a-link")] = toStr "#" := by
  refine ⟨fun e => ?_, by decide, by decide, by decide, by decide⟩
  unfold resolveLink resolveLinkAmended
  by_cases h1 : entryGetD e (toStr "url") (entryGetD e (toStr "doi") (toStr "#")) = toStr "#"
  · simp [h1]
  · by_cases h2 :
      (pyStartsWith (toStr "http") (entryGetD e (toStr "url") (entryGetD e (toStr "doi") (toStr "#")))
        || pyStartsWith (toStr "ftp") (entryGetD e (toStr "url") (entryGetD e (toStr "doi") (toStr "#")))) = true
    · simp [h1, h2]
    · have h2f := Bool.eq_false_iff.mpr (fun hh => h2 hh)
      obtain ⟨hb, hc⟩ := Bool.or_eq_false_iff.mp h2f
      cases hd : entryGet e (toStr "doi") with
      | none =>
        simp only [entryGetD, hd, Option.getD_none] at h1 hb hc
        simp [entryHas, entryGetD, hd, h1, hb, hc]
      | some d =>
        simp only [entryGetD, hd, Option.getD_some] at h1 hb hc
        simp [entryHas, entryGetD, hd, h1, hb, hc]

/-- Claim C8: when the read-and-parse step fails (file missing at the point
of reading, or any parse or encoding error), the conversion reports the
cause and produces no output document; the model makes the output write
atomic, so no partial output exists on these paths. -/
theorem c8_failures_produce_no_output :
    (∀ f, (convert_bib_to_html f ReadResult.fileNotFound).output = none) ∧
    (∀ f, (convert_bib_to_html f ReadResult.fileNotFound).errorMessage
      = some (toStr "ERROR: File not found: " ++ f)) ∧
    (∀ f m, (convert_bib_to_html f (ReadResult.failed m)).output = none) ∧
    (∀ f m, (convert_bib_to_html f (ReadResult.failed m)).errorMessage
      = some (toStr "ERROR while trying to read the BibTeX file: " ++ m)) :=
  ⟨fun _ => rfl, fun _ => rfl, fun _ _ => rfl, fun _ _ => rfl⟩

theorem surnameOf_eq_claimed (p : Str) : surnameOf p = surnameClaimed p := by
  unfold surnameOf surnameClaimed
  by_cases h : (pyStrip p).contains ','
  · rw [if_pos h, if_pos h, headD_map pyStrip _ (pySplit_ne_nil _ _), pySplit_comma_head]
  · rw [if_neg h, if_neg h]

theorem joinAuthors_eq_claimed (l : List Str) : joinAuthors l = joinClaimed l := by
  match l with
  | [] => rfl
  | [x] => rfl
  | x :: y :: rest => simp [joinAuthors, joinClaimed]

/-- Claim C3: for a record with an author field, the author string splits the
field on `" and "`, trims each piece, extracts the surname (before the first
comma, or the last whitespace token), and joins the surnames with `", "` and
a final `" & "` for two or more authors, the sole surname for one, and the
empty string without an author field; the claimed example evaluates as
stated.  Both sides fail on the same token-less pieces. -/
theorem c3_author_string :
    (∀ e, get_author_string e = authorStringClaimed e) ∧
    get_author_string [(toStr "author", toStr "Jane Doe and Richard Roe and Amy Lee")]
      = some (toStr "Doe, Roe & Lee") := by
  refine ⟨fun e => ?_, by decide⟩
  have hs : surnameOf = surnameClaimed := funext surnameOf_eq_claimed
  have hj : joinAuthors = joinClaimed := funext joinAuthors_eq_claimed
  unfold get_author_string authorStringClaimed
  rw [hs, hj]
  cases entryGet e (toStr "author") <;> rfl

theorem all_of_dropWhile_all (p : Char → Bool) :
    ∀ l : Str, (∀ x ∈ List.dropWhile p l, p x = true) → ∀ x ∈ l, p x = true := by
  intro l
  induction l with
  | nil => intro _ x hx; cases hx
  | cons c t ih =>
    intro h x hx
    by_cases hc : p c = true
    · cases hx with
      | head => exact hc
      | tail _ hmem => exact ih (by simpa [List.dropWhile_cons, hc] using h) x hmem
    · exfalso
      apply hc
      apply h
      simp [List.dropWhile_cons, hc]

theorem pyStrip_eq_nil_iff (s : Str) : pyStrip s = [] ↔ ∀ c ∈ s, pyIsSpace c = true := by
  unfold pyStrip
  rw [List.reverse_eq_nil_iff, List.dropWhile_eq_nil_iff]
  constructor
  · intro h c hc
    refine all_of_dropWhile_all pyIsSpace s (fun x hx => ?_) c hc
    exact h x (List.mem_reverse.mpr hx)
  · intro h x hx
    exact h x ((List.dropWhile_sublist pyIsSpace).subset (List.mem_reverse.mp hx))

theorem pyStrip_ne_nil_of_paren (n : Str) (h : pyStartsWith (toStr "(") n = true) :
    pyStrip n ≠ [] := by
  cases n with
  | nil => simp [pyStartsWith, List.isPrefixOf] at h
  | cons c t =>
    have hc : c = '(' := by
      have hh : toStr "(" = ['('] := rfl
      simp [pyStartsWith, hh, List.isPrefixOf] at h
      exact h.symm
    intro hnil
    have := (pyStrip_eq_nil_iff (c :: t)).mp hnil c (by simp)
    rw [hc] at this
    simp [pyIsSpace] at this

/-- Claim C4, counterexample: for the record with `note=" (x) "` the
trimmed note text `"(x)"` starts with `'('` and ends with `')'`, so the
claim prescribes a populated custom note; the code tests the raw, untrimmed
value, which starts with a space, so no custom note is rendered and the
fragment ends with a bare period. -/
theorem c4_custom_note_counterexample :
    customNote [(toStr "note", toStr " (x) ")] = toStr "" ∧
    pyStartsWith (toStr "(") (pyStrip (toStr " (x) ")) = true ∧
    pyEndsWith (toStr ")") (pyStrip (toStr " (x) ")) = true ∧
    noteSeg [(toStr "note", toStr " (x) ")] = toStr "." := by
  decide

/-- Claim C4 as amended: the custom note is populated exactly when the raw
(untrimmed) note field starts with `'('` and ends with `')'`; when populated
it holds the trimmed note text and is rendered emphasized-strong immediately
after the links followed by a period, and otherwise the sentence ends with a
bare period after the links, before the optional venue sentence. -/
theorem c4_custom_note_amended :
    (∀ e, (customNote e ≠ [] ↔
      (pyStartsWith (toStr "(") (entryGetD e (toStr "note") [])
        && pyEndsWith (toStr ")") (entryGetD e (toStr "note") [])) = true)) ∧
    (∀ e, customNote e = [] ∨ customNote e = pyStrip (entryGetD e (toStr "note") [])) ∧
    (∀ e, format_bibtex_entry e = (get_author_string e).map
      (fun a => headerSeg e a ++ auxHtml e ++ noteSeg e ++ venueSeg e ++ toStr "</p>\n</li>")) ∧
    noteSeg [(toStr "note", toStr "(AlexNet)")] = toStr " <strong>(AlexNet)</strong>." ∧
    noteSeg [(toStr "note", toStr "see errata")] = toStr "." := by
  refine ⟨fun e => ?_, fun e => ?_, fun e => rfl, by decide, by decide⟩
  · unfold customNote
    by_cases h : (pyStartsWith (toStr "(") (entryGetD e (toStr "note") [])
        && pyEndsWith (toStr ")") (entryGetD e (toStr "note") [])) = true
    · rw [if_pos h]
      exact ⟨fun _ => h, fun _ => pyStrip_ne_nil_of_paren _ ((Bool.and_eq_true _ _).mp h).1⟩
    · rw [if_neg h]
      simp [h]
  · unfold customNote
    by_cases h : (pyStartsWith (toStr "(") (entryGetD e (toStr "note") [])
        && pyEndsWith (toStr ")") (entryGetD e (toStr "note") [])) = true
    · rw [if_pos h]; right; rfl
    · rw [if_neg h]; left; rfl

theorem takeWhile_length_le (p : α → Bool) : ∀ l : List α, (l.takeWhile p).length ≤ l.length
  | [] => Nat.le.refl
  | a :: l => by
    rw [List.takeWhile_cons]
    by_cases h : p a = true
    · simpa [h, Nat.succ_le_succ_iff] using takeWhile_length_le p l
    · simp [h]

theorem auxHtmlAux_eq_takeWhile (e : Entry) : ∀ L : List Nat,
    auxHtmlAux e L = catStr (((L.takeWhile (fun n => entryHas e (urlKey n))).map
      (fun n => (entryGetD e (urlKey n) [],
        entryGetD e (urlNoteKey n) (toStr "link " ++ toStr (toString n))))).map renderAux) := by
  intro L
  induction L with
  | nil => rfl
  | cons a rest ih =>
    unfold auxHtmlAux
    by_cases h : entryHas e (urlKey a) = false
    · rw [if_pos h, List.takeWhile_cons]
      simp [h, catStr]
    · have h' : entryHas e (urlKey a) = true := by
        cases hh : entryHas e (urlKey a) with
        | false => exact absurd hh h
        | true => rfl
      rw [if_neg h, List.takeWhile_cons]
      simp only [h', if_pos]
      rw [List.map_cons, List.map_cons]
      show _ ++ auxHtmlAux e rest = renderAux _ ++ catStr _
      rw [ih]
      cases hn : entryGet e (urlNoteKey a) with
      | none => simp [entryHas, entryGetD, hn, renderAux]
      | some v => simp [entryHas, entryGetD, hn, renderAux]

/-- Claim C5: the rendered auxiliary links are exactly the contiguous run of
present `url_<n>` fields over the indices 2 through 30 — the loop stops at
the first absent index, so indices after a gap are never rendered — each
labelled `url_note_<n>` when supplied and `link <n>` otherwise; at most 29
auxiliary links are produced, and a record with `url_2` and `url_4` but no
`url_3` emits exactly the one link for index 2. -/
theorem c5_auxiliary_links :
    (∀ e, auxHtml e = catStr ((auxLinksClaimed e).map renderAux)) ∧
    (∀ e, (auxLinksClaimed e).length ≤ 29) ∧
    auxLinksClaimed [(toStr "url_2", toStr "u2"), (toStr "url_4", toStr "u4")]
      = [(toStr "u2", toStr "link 2")] ∧
    auxHtml [(toStr "url_2", toStr "u2"), (toStr "url_4", toStr "u4")]
      = toStr " <a href=\"u2\" class=\"external\">[link 2]</a>" := by
  refine ⟨fun e => ?_, fun e => ?_, by decide, by decide⟩
  · exact auxHtmlAux_eq_takeWhile e (List.range' 2 29)
  · unfold auxLinksClaimed
    rw [List.length_map]
    calc ((List.range' 2 29).takeWhile fun n => entryHas e (urlKey n)).length
        ≤ (List.range' 2 29).length := takeWhile_length_le _ _
      _ = 29 := by simp

/-- Claim C7: the venue line shows at most one container with priority
journal over booktitle (rendered as `In <booktitle>`) over publisher, each
emphasized; a present volume appends `", Vol. <volume>"`; a present pages
field has each double-hyphen replaced by an en-dash and appends
`", pp. <pages>"`; and the venue sentence is present exactly when at least
one of the container, volume and pages fragments is non-empty. -/
theorem c7_venue_line :
    (∀ e, container e =
      (match entryGet e (toStr "journal") with
       | some j => toStr "<em>" ++ j ++ toStr "</em>"
       | none =>
         match entryGet e (toStr "booktitle") with
         | some b => toStr "<em>In " ++ b ++ toStr "</em>"
         | none =>
           match entryGet e (toStr "publisher") with
           | some p => toStr "<em>" ++ p ++ toStr "</em>"
           | none => [])) ∧
    (∀ e, volumeStr e =
      (match entryGet e (toStr "volume") with
       | some v => toStr ", Vol. " ++ v
       | none => [])) ∧
    (∀ e, pagesStr e =
      (match entryGet e (toStr "pages") with
       | some p => toStr ", pp. " ++ pyReplace (toStr "--") (toStr "–") p
       | none => [])) ∧
    pagesStr [(toStr "pages", toStr "100--110")] = toStr ", pp. 100–110" ∧
    (∀ e, (venueSeg e = [] ↔ container e = [] ∧ volumeStr e = [] ∧ pagesStr e = [])) ∧
    (∀ e, venueSeg e = [] ∨
      venueSeg e = toStr " " ++ container e ++ volumeStr e ++ pagesStr e ++ toStr ".") := by
  refine ⟨fun e => ?_, fun e => ?_, fun e => ?_, by decide, fun e => ?_, fun e => ?_⟩
  · unfold container
    cases hj : entryGet e (toStr "journal") with
    | some j => simp [entryHas, entryGetD, hj]
    | none =>
      cases hb : entryGet e (toStr "booktitle") with
      | some b => simp [entryHas, entryGetD, hj, hb]
      | none =>
        cases hp : entryGet e (toStr "publisher") with
        | some p => simp [entryHas, entryGetD, hj, hb, hp]
        | none => simp [entryHas, entryGetD, hj, hb, hp]
  · unfold volumeStr
    cases hv : entryGet e (toStr "volume") with
    | some v => simp [entryHas, entryGetD, hv]
    | none => simp [entryHas, entryGetD, hv]
  · unfold pagesStr
    cases hp : entryGet e (toStr "pages") with
    | some p => simp [entryHas, entryGetD, hp]
    | none => simp [entryHas, entryGetD, hp]
  · unfold venueSeg
    by_cases h : container e ≠ [] ∨ volumeStr e ≠ [] ∨ pagesStr e ≠ []
    · rw [if_pos h]
      constructor
      · intro habs
        have : toStr " " = [' '] := rfl
        rw [this] at habs
        simp at habs
      · rintro ⟨h1, h2, h3⟩
        rcases h with h | h | h
        · exact absurd h1 h
        · exact absurd h2 h
        · exact absurd h3 h
    · rw [if_neg h]
      push_neg at h
      obtain ⟨h1, h2, h3⟩ := h
      simp [h1, h2, h3]
  · unfold venueSeg
    by_cases h : container e ≠ [] ∨ volumeStr e ≠ [] ∨ pagesStr e ≠ []
    · rw [if_pos h]; right; rfl
    · rw [if_neg h]; left; rfl

theorem get_author_string_st_spec (e : Entry) :
    get_author_string_st e = (get_author_string e, e) := by
  unfold get_author_string_st get_author_string
  cases h : entryGet e (toStr "author") with
  | none => simp [dHas, dIdx, entryHas, entryGetD, h]
  | some a => simp [dHas, dIdx, entryHas, entryGetD, h]

theorem resolveLink_st_spec (e : Entry) : resolveLink_st e = (resolveLink e, e) := by
  unfold resolveLink_st resolveLink
  dsimp only [dGetD, dHas, dIdx]
  split_ifs <;> rfl

theorem customNote_st_spec (e : Entry) : customNote_st e = (customNote e, e) := by
  unfold customNote_st customNote
  dsimp only [dGetD, dIdx]
  split_ifs <;> rfl

theorem container_st_spec (e : Entry) : container_st e = (container e, e) := by
  unfold container_st container
  dsimp only [dHas, dIdx]
  split_ifs <;> rfl

theorem volumeStr_st_spec (e : Entry) : volumeStr_st e = (volumeStr e, e) := by
  unfold volumeStr_st volumeStr
  dsimp only [dHas, dIdx]
  split_ifs <;> rfl

theorem pagesStr_st_spec (e : Entry) : pagesStr_st e = (pagesStr e, e) := by
  unfold pagesStr_st pagesStr
  dsimp only [dHas, dIdx]
  split_ifs <;> rfl

theorem auxHtml_st_spec (e : Entry) : ∀ L : List Nat, auxHtml_st e L = (auxHtmlAux e L, e) := by
  intro L
  induction L with
  | nil => rfl
  | cons a rest ih =>
    unfold auxHtml_st auxHtmlAux
    dsimp only [dHas, dIdx]
    by_cases h : entryHas e (urlKey a) = false
    · simp [h]
    · by_cases hn : entryHas e (urlNoteKey a) = false
      · simp [h, hn, ih]
      · simp [h, hn, ih]

theorem format_bibtex_entry_st_spec (e : Entry) :
    format_bibtex_entry_st e = (format_bibtex_entry e, e) := by
  unfold format_bibtex_entry_st
  dsimp only [dGetD]
  rw [get_author_string_st_spec]
  cases h : get_author_string e with
  | none => simp [format_bibtex_entry, h]
  | some author_str =>
    dsimp only
    rw [resolveLink_st_spec, customNote_st_spec, container_st_spec, volumeStr_st_spec,
      pagesStr_st_spec, auxHtml_st_spec]
    simp [format_bibtex_entry, h, headerSeg, noteSeg, venueSeg, auxHtml, yearOf, titleOf]

/-- Claim C9: formatting a record into an HTML fragment leaves the record
unchanged: in the version of the formatter whose every record access is
threaded explicitly, the record coming out of the call is the record that
went in — every operation the formatter performs on the record is a read —
and the produced fragment is that of the pure formatter. -/
theorem c9_formatter_does_not_mutate :
    ∀ e, (format_bibtex_entry_st e).2 = e ∧ (format_bibtex_entry_st e).1 = format_bibtex_entry e :=
  fun e => by rw [format_bibtex_entry_st_spec]; exact ⟨rfl, rfl⟩

theorem mapO_isSome (f : α → Option β) :
    ∀ l : List α, (∀ x ∈ l, (f x).isSome = true) → (mapO f l).isSome = true := by
  intro l
  induction l with
  | nil => intro _; rfl
  | cons a t ih =>
    intro h
    have ha : (f a).isSome = true := h a (by simp)
    have ht : (mapO f t).isSome = true := ih (fun x hx => h x (by simp [hx]))
    cases hfa : f a with
    | none => rw [hfa] at ha; simp at ha
    | some b =>
      cases hm : mapO f t with
      | none => rw [hm] at ht; simp at ht
      | some bs => simp [mapO, hfa, hm]

theorem surnameOf_isSome_of_tokenful (p : Str)
    (h : (pyStrip p).contains ',' = true ∨ pySplitWs (pyStrip p) ≠ []) :
    (surnameOf p).isSome = true := by
  unfold surnameOf
  by_cases hc : ',' ∈ pyStrip p
  · simp [hc]
  · have hw : pySplitWs (pyStrip p) ≠ [] := by
      rcases h with h | h
      · exact absurd (by simpa using h) hc
      · exact h
    simp [hc]
    exact hw

/-- Claim C10, counterexample: the claim asserts totality for an arbitrary
author field value, but for the record with `author=""` the single piece is
empty, the whitespace split is the empty list, and Python raises an
`IndexError` on `parts[-1]`, modelled by `none`. -/
theorem c10_totality_counterexample :
    get_author_string [(toStr "author", toStr "")] = none ∧
    get_author_string [(toStr "author", toStr "Doe and ")] = none := by
  decide

/-- Claim C10 as amended: `get_author_string` terminates and returns a string
for every record whose author field value has, in every piece obtained by
splitting on `" and "`, either a comma (after trimming) or at least one
whitespace-delimited token; a trimmed piece that is comma-free and
token-less makes the surname extraction raise. -/
theorem c10_total_on_tokenful_pieces :
    ∀ (e : Entry) (a : Str), entryGet e (toStr "author") = some a →
      (∀ p ∈ pySplit (toStr " and ") a,
        (pyStrip p).contains ',' = true ∨ pySplitWs (pyStrip p) ≠ []) →
      (get_author_string e).isSome = true := by
  intro e a h hp
  unfold get_author_string
  rw [h]
  have hm : (mapO surnameOf (pySplit (toStr " and ") a)).isSome = true :=
    mapO_isSome _ _ (fun p hpm => surnameOf_isSome_of_tokenful p (hp p hpm))
  cases hmm : mapO surnameOf (pySplit (toStr " and ") a) with
  | none => rw [hmm] at hm; simp at hm
  | some l => simp [hmm]

/-- Witness for the amended claim C10 at a concrete record whose two author
pieces have a token and a comma respectively. -/
theorem c10_total_on_tokenful_pieces_witness :
    entryGet [(toStr "author", toStr "Jane Doe and Roe, R")] (toStr "author")
      = some (toStr "Jane Doe and Roe, R") ∧
    (∀ p ∈ pySplit (toStr " and ") (toStr "Jane Doe and Roe, R"),
      (pyStrip p).contains ',' = true ∨ pySplitWs (pyStrip p) ≠ []) ∧
    (get_author_string [(toStr "author", toStr "Jane Doe and Roe, R")]).isSome = true :=
  ⟨by decide, by decide,
    c10_total_on_tokenful_pieces [(toStr "author", toStr "Jane Doe and Roe, R")]
      (toStr "Jane Doe and Roe, R") (by decide) (by decide)⟩

theorem strLt_irrefl : ∀ s : Str, strLt s s = false
  | [] => rfl
  | a :: s => by simp [strLt, lt_irrefl, strLt_irrefl s]

theorem strLt_trans : ∀ s t u : Str, strLt s t = true → strLt t u = true → strLt s u = true
  | [], [], _, h1, _ => by simp [strLt] at h1
  | [], _ :: _, [], _, h2 => by simp [strLt] at h2
  | [], _ :: _, _ :: _, _, _ => rfl
  | _ :: _, [], _, h1, _ => by simp [strLt] at h1
  | _ :: _, _ :: _, [], _, h2 => by simp [strLt] at h2
  | a :: s, b :: t, c :: u, h1, h2 => by
    rcases lt_trichotomy a b with hab | hab | hab
    · rcases lt_trichotomy b c with hbc | hbc | hbc
      · simp [strLt, lt_trans hab hbc]
      · subst hbc; simp [strLt, hab]
      · exfalso
        simp [strLt, lt_asymm hbc, hbc] at h2
    · subst hab
      rcases lt_trichotomy a c with hac | hac | hac
      · simp [strLt, hac]
      · subst hac
        simp only [strLt, lt_irrefl, if_false, ite_false, if_neg] at h1 h2 ⊢
        exact strLt_trans s t u (by simpa using h1) (by simpa using h2)
      · exfalso
        simp [strLt, lt_asymm hac, hac] at h2
    · exfalso
      simp [strLt, lt_asymm hab, hab] at h1

theorem strLt_eq_of_both_false : ∀ s t : Str, strLt s t = false → strLt t s = false → s = t
  | [], [], _, _ => rfl
  | [], _ :: _, h1, _ => by simp [strLt] at h1
  | _ :: _, [], _, h2 => by simp [strLt] at h2
  | a :: s, b :: t, h1, h2 => by
    rcases lt_trichotomy a b with hab | hab | hab
    · exfalso; simp [strLt, hab] at h1
    · subst hab
      simp only [strLt, lt_irrefl, ite_false, if_neg, if_false] at h1 h2
      rw [strLt_eq_of_both_false s t (by simpa using h1) (by simpa using h2)]
    · exfalso; simp [strLt, hab] at h2

theorem strLt_asymm (s t : Str) (h : strLt s t = true) : strLt t s = false := by
  cases hh : strLt t s with
  | false => rfl
  | true => exact absurd (strLt_trans s t s h hh) (by simp [strLt_irrefl s])

theorem strLt_of_lt_of_nlt (s t u : Str) (h1 : strLt s t = true) (h2 : strLt u t = false) :
    strLt s u = true := by
  cases hh : strLt t u with
  | true => exact strLt_trans s t u h1 hh
  | false => rw [strLt_eq_of_both_false t u hh h2] at h1; exact h1

theorem strLe_of_not_le (s t : Str) (h : strLe s t = false) : strLe t s = true := by
  unfold strLe at h ⊢
  rw [strLt_asymm t s (by simpa using h)]
  rfl

theorem strLe_trans (s t u : Str) (h1 : strLe s t = true) (h2 : strLe t u = true) :
    strLe s u = true := by
  unfold strLe at h1 h2 ⊢
  cases hus : strLt u s with
  | false => rfl
  | true =>
    exfalso
    have hts : strLt t s = false := by simpa using h1
    have hut : strLt u t = false := by simpa using h2
    have := strLt_of_lt_of_nlt u s t hus hts
    rw [this] at hut
    cases hut

theorem strLe_eq_lt_or_beq (s t : Str) : strLe s t = (strLt s t || s == t) := by
  unfold strLe
  cases hts : strLt t s with
  | true =>
    have hst : strLt s t = false := strLt_asymm t s hts
    have hne : (s == t) = false := by
      cases hbe : s == t with
      | false => rfl
      | true =>
        have : s = t := by simpa using hbe
        subst this
        rw [strLt_irrefl s] at hts
        cases hts
    simp [hst, hne]
  | false =>
    cases hst : strLt s t with
    | true => simp
    | false =>
      have : s = t := strLt_eq_of_both_false s t hst hts
      subst this
      simp

theorem insertComp_nil (le : α → α → Bool) (a : α) : insertComp le a [] = [a] := rfl

theorem insertComp_cons (le : α → α → Bool) (a b : α) (l : List α) :
    insertComp le a (b :: l) = if le a b then a :: b :: l else b :: insertComp le a l := rfl

theorem mem_insertComp (le : α → α → Bool) (a x : α) :
    ∀ l : List α, x ∈ insertComp le a l ↔ x = a ∨ x ∈ l := by
  intro l
  induction l with
  | nil => simp [insertComp]
  | cons b t ih =>
    unfold insertComp
    by_cases h : le a b = true
    · simp [h]
    · simp [h, ih]
      tauto

theorem pairwise_insertComp (le : α → α → Bool)
    (htot : ∀ x y, le x y = false → le y x = true)
    (htrans : ∀ x y z, le x y = true → le y z = true → le x z = true) (a : α) :
    ∀ l : List α, l.Pairwise (fun x y => le x y = true) →
      (insertComp le a l).Pairwise (fun x y => le x y = true) := by
  intro l
  induction l with
  | nil => intro _; simp [insertComp]
  | cons b t ih =>
    intro h
    rw [List.pairwise_cons] at h
    obtain ⟨hb, ht⟩ := h
    unfold insertComp
    by_cases hab : le a b = true
    · rw [if_pos hab, List.pairwise_cons]
      refine ⟨?_, List.pairwise_cons.mpr ⟨hb, ht⟩⟩
      intro y hy
      cases hy with
      | head => exact hab
      | tail _ hmem => exact htrans a b y hab (hb y hmem)
    · rw [if_neg hab, List.pairwise_cons]
      refine ⟨?_, ih ht⟩
      intro y hy
      rcases (mem_insertComp le a y t).mp hy with hy | hy
      · rw [hy]
        exact htot a b (by simpa using hab)
      · exact hb y hy

theorem pairwise_sortComp (le : α → α → Bool)
    (htot : ∀ x y, le x y = false → le y x = true)
    (htrans : ∀ x y z, le x y = true → le y z = true → le x z = true) :
    ∀ l : List α, (sortComp le l).Pairwise (fun x y => le x y = true) := by
  intro l
  induction l with
  | nil => simp [sortComp]
  | cons a t ih => exact pairwise_insertComp le htot htrans a (sortComp le t) ih

theorem mem_sortComp (le : α → α → Bool) (x : α) :
    ∀ l : List α, x ∈ sortComp le l ↔ x ∈ l := by
  intro l
  induction l with
  | nil => simp [sortComp]
  | cons a t ih =>
    unfold sortComp
    rw [mem_insertComp, ih]
    simp

theorem insertComp_congr (f g : α → α → Bool) (a : α) :
    ∀ l : List α, (∀ x ∈ l, f a x = g a x) → insertComp f a l = insertComp g a l := by
  intro l
  induction l with
  | nil => intro _; rfl
  | cons b t ih =>
    intro h
    unfold insertComp
    rw [h b (by simp)]
    by_cases hg : g a b = true
    · rw [if_pos hg, if_pos hg]
    · rw [if_neg hg, if_neg hg, ih (fun x hx => h x (by simp [hx]))]

theorem leK_total (k : α → Str) (x y : α) (h : leK k x y = false) : leK k y x = true :=
  strLe_of_not_le _ _ h

theorem leK_trans (k : α → Str) (x y z : α) (h1 : leK k x y = true) (h2 : leK k y z = true) :
    leK k x z = true :=
  strLe_trans _ _ _ h1 h2

theorem lexK_eq_leK_of_le1 (k1 k2 : α → Str) (a x : α) (h : strLe (k1 a) (k1 x) = true) :
    lexK k2 k1 a x = leK k2 a x := by
  unfold lexK leK
  rw [h, Bool.and_true, strLe_eq_lt_or_beq]

theorem insertComp_comm (k1 k2 : α → Str) (a b : α)
    (hab : strLe (k1 a) (k1 b) = false) :
    ∀ P : List α, insertComp (leK k2) b (insertComp (lexK k2 k1) a P)
      = insertComp (lexK k2 k1) a (insertComp (leK k2) b P) := by
  have hlex : lexK k2 k1 a b = strLt (k2 a) (k2 b) := by
    unfold lexK
    rw [hab, Bool.and_false, Bool.or_false]
  have hswap : leK k2 b a = !(strLt (k2 a) (k2 b)) := rfl
  intro P
  induction P with
  | nil =>
    cases hx : strLt (k2 a) (k2 b) with
    | true =>
      have h1 : lexK k2 k1 a b = true := by rw [hlex, hx]
      have h2 : leK k2 b a = false := by rw [hswap, hx]; rfl
      simp [insertComp, h1, h2]
    | false =>
      have h1 : lexK k2 k1 a b = false := by rw [hlex, hx]
      have h2 : leK k2 b a = true := by rw [hswap, hx]; rfl
      simp [insertComp, h1, h2]
  | cons c P' ih =>
    by_cases hbc : leK k2 b c = true
    · by_cases hac : lexK k2 k1 a c = true
      · cases hx : strLt (k2 a) (k2 b) with
        | true =>
          have h1 : lexK k2 k1 a b = true := by rw [hlex, hx]
          have h2 : leK k2 b a = false := by rw [hswap, hx]; rfl
          simp [insertComp, hac, hbc, h1, h2]
        | false =>
          have h1 : lexK k2 k1 a b = false := by rw [hlex, hx]
          have h2 : leK k2 b a = true := by rw [hswap, hx]; rfl
          simp [insertComp, hac, hbc, h1, h2]
      · have hacf : lexK k2 k1 a c = false := by simpa using hac
        have hab' : lexK k2 k1 a b = false := by
          rw [hlex]
          cases hx : strLt (k2 a) (k2 b) with
          | false => rfl
          | true =>
            exfalso
            have hcb : strLt (k2 c) (k2 b) = false := by
              have hh : strLe (k2 b) (k2 c) = true := hbc
              unfold strLe at hh
              simpa using hh
            have hlt : strLt (k2 a) (k2 c) = true := strLt_of_lt_of_nlt _ _ _ hx hcb
            have : lexK k2 k1 a c = true := by
              unfold lexK
              rw [hlt]
              rfl
            rw [this] at hacf
            cases hacf
        simp [insertComp, hacf, hbc, hab']
    · have hbcf : leK k2 b c = false := by simpa using hbc
      by_cases hac : lexK k2 k1 a c = true
      · have hcb : strLt (k2 c) (k2 b) = true := by
          have hh := hbcf
          unfold leK strLe at hh
          simpa using hh
        have hba : leK k2 b a = false := by
          rw [hswap]
          cases hx : strLt (k2 a) (k2 b) with
          | true => rfl
          | false =>
            exfalso
            have hac' : strLt (k2 a) (k2 c) = true ∨ (k2 a = k2 c ∧ strLe (k1 a) (k1 c) = true) := by
              simpa [lexK] using hac
            rcases hac' with hlt | ⟨hbeq, _⟩
            · have hres := strLt_trans _ _ _ hlt hcb
              rw [hres] at hx
              cases hx
            · rw [← hbeq] at hcb
              rw [hcb] at hx
              cases hx
        simp [insertComp, hac, hbcf, hba]
      · have hacf : lexK k2 k1 a c = false := by simpa using hac
        simp [insertComp, hacf, hbcf, ih]

theorem sortComp_insertComp (k1 k2 : α → Str) (a : α) :
    ∀ M : List α, M.Pairwise (fun x y => leK k1 x y = true) →
      sortComp (leK k2) (insertComp (leK k1) a M)
        = insertComp (lexK k2 k1) a (sortComp (leK k2) M) := by
  intro M
  induction M with
  | nil => intro _; rfl
  | cons b M' ih =>
    intro h
    rw [List.pairwise_cons] at h
    obtain ⟨hb, hM'⟩ := h
    by_cases hab : leK k1 a b = true
    · have hstep : insertComp (leK k1) a (b :: M') = a :: b :: M' := by
        rw [insertComp_cons, if_pos hab]
      rw [hstep]
      show insertComp (leK k2) a (sortComp (leK k2) (b :: M'))
        = insertComp (lexK k2 k1) a (sortComp (leK k2) (b :: M'))
      refine insertComp_congr (leK k2) (lexK k2 k1) a _ ?_
      intro x hx
      have hx' := (mem_sortComp (leK k2) x (b :: M')).mp hx
      refine (lexK_eq_leK_of_le1 k1 k2 a x ?_).symm
      cases hx' with
      | head => exact hab
      | tail _ hmem => exact strLe_trans _ _ _ hab (hb x hmem)
    · have hstep : insertComp (leK k1) a (b :: M') = b :: insertComp (leK k1) a M' := by
        rw [insertComp_cons, if_neg hab]
      rw [hstep]
      show insertComp (leK k2) b (sortComp (leK k2) (insertComp (leK k1) a M'))
        = insertComp (lexK k2 k1) a (insertComp (leK k2) b (sortComp (leK k2) M'))
      rw [ih hM', insertComp_comm k1 k2 a b (by simpa using hab)]

theorem sortComp_sortComp (k1 k2 : α → Str) :
    ∀ l : List α, sortComp (leK k2) (sortComp (leK k1) l) = sortComp (lexK k2 k1) l := by
  intro l
  induction l with
  | nil => rfl
  | cons a t ih =>
    show sortComp (leK k2) (insertComp (leK k1) a (sortComp (leK k1) t)) = _
    rw [sortComp_insertComp k1 k2 a _
      (pairwise_sortComp (leK k1) (leK_total k1) (leK_trans k1) t), ih]
    rfl

/-- Claim C6, counterexample: the claim asserts that under the code's
string-lexicographic year comparison a year "900" would sort before "1998"
and "2012"; in fact the comparison is by characters and '9' is greater than
'1' and '2', so "1998" and "2012" both compare below "900" and a year-"900"
record comes out last, not first. -/
theorem c6_year_order_counterexample :
    strLt (toStr "1998") (toStr "900") = true ∧
    strLt (toStr "2012") (toStr "900") = true ∧
    sortEntries
      [[(toStr "author", toStr "Cid"), (toStr "year", toStr "900")],
       [(toStr "author", toStr "Ann"), (toStr "year", toStr "1998")],
       [(toStr "author", toStr "Bob"), (toStr "year", toStr "2012")]]
      = some
      [[(toStr "author", toStr "Ann"), (toStr "year", toStr "1998")],
       [(toStr "author", toStr "Bob"), (toStr "year", toStr "2012")],
       [(toStr "author", toStr "Cid"), (toStr "year", toStr "900")]] := by
  decide

/-- Claim C6 as amended: the two-pass stable sort (pass 1 by lower-cased
first-author surname, pass 2 by raw year string, stable) equals the single
stable sort by the composite key (raw year string, lower-cased first-author
surname) with year dominant; year comparison is string-lexicographic by
characters, so "2012" sorts after "1998" but a hypothetical "900" would sort
after both, and within equal year strings the pass-1 surname order is
preserved.  On the claimed example the surname/year pairs (Zed,1998),
(Ann,1998), (Lee,1990) come out as (Lee,1990), (Ann,1998), (Zed,1998). -/
theorem c6_two_pass_sort_equiv :
    (∀ l : List Entry, sortEntries l = sortEntriesLex l) ∧
    strLt (toStr "1998") (toStr "2012") = true ∧
    strLt (toStr "1998") (toStr "900") = true ∧
    strLt (toStr "2012") (toStr "900") = true ∧
    sortEntries
      [[(toStr "author", toStr "Zed"), (toStr "year", toStr "1998")],
       [(toStr "author", toStr "Ann"), (toStr "year", toStr "1998")],
       [(toStr "author", toStr "Lee"), (toStr "year", toStr "1990")]]
      = some
      [[(toStr "author", toStr "Lee"), (toStr "year", toStr "1990")],
       [(toStr "author", toStr "Ann"), (toStr "year", toStr "1998")],
       [(toStr "author", toStr "Zed"), (toStr "year", toStr "1998")]] := by
  refine ⟨fun l => ?_, by decide, by decide, by decide, by decide⟩
  unfold sortEntries sortEntriesLex
  cases hm : mapO authorSortKey l with
  | none => rfl
  | some ks => rw [sortComp_sortComp authorKeyD yearKey l]
